import Mathlib

/-!
Shallow embedding of the keeks-elote backtesting core
(`keeks_elote/backtest.py`, `keeks_elote/model_evaluation.py`,
`keeks_elote/data_handling.py`).

Modelling conventions:
* Numeric values (odds, probabilities, funds) are rationals (`Rat`),
  idealising IEEE doubles.
* A Python `dict` keyed by period is an insertion-ordered association
  list `List (Int × List Game)`; `dict.get` is `lookupGames`.
* The rating arena (external `elote` collaborator) is modelled by its
  interaction trace: the list of matchup batches fed to
  `arena.tournament`, together with an abstract prediction function
  `PredictFn` that may depend on that trace and may raise
  (`Except Unit`).
* The staking strategy (external `keeks` collaborator) is an abstract
  `StrategyFn` that may raise.
* Python exceptions are modelled with `Except Unit`; `logger` calls that
  the spec mentions are modelled as `LogEvent` values.
* Every probability prediction performed during a run is recorded as a
  `PredCall` carrying the arena trace that was current when the
  prediction was made.
-/

namespace KeeksElote

abbrev Label := String

/-- One `(winner, loser)` pair handed to `arena.tournament`; `none`
models a missing dictionary key (`game.get` returning `None`). -/
abbrev Matchup := Option Label × Option Label

/-- One batch handed to a single `arena.tournament` call. -/
abbrev Batch := List Matchup

/-- The arena state, modelled as the sequence of `tournament` batches it
has absorbed so far. -/
abbrev Trace := List Batch

/-- Abstract rating oracle: `arena.expected_score` as a function of the
arena state (trace) and the two labels; may raise. -/
abbrev PredictFn := Trace → Option Label → Option Label → Except Unit Rat

/-- Abstract staking strategy: `strategy.evaluate(probability)`; may
raise. -/
abbrev StrategyFn := Rat → Except Unit Rat

/-- One game record. `winner`/`loser` model `game.get("winner")` /
`game.get("loser")` (a missing key and an explicit `None` value
coincide). For the odds the Python code distinguishes key presence
(`"winner_odds" in game`) from a `None` value
(`game.get("winner_odds") is not None`), hence the nested `Option`:
the outer layer is key presence, the inner layer the stored value. -/
structure Game where
  winner : Option Label
  loser : Option Label
  winner_odds : Option (Option Rat)
  loser_odds : Option (Option Rat)
deriving DecidableEq

/-- A candidate wager as built in `_evaluate_bets_for_next_period`. -/
structure Bet where
  label : Label
  opponent : Label
  fraction : Rat
  payoff : Rat
  loss : Rat
  actual_outcome : Bool
deriving DecidableEq

/-- Modelled from the spec: the `keeks.bankroll.BankRoll` ledger is an
external collaborator (not under `src/`); the spec's §6 Bankroll Ledger
capability exposes a balance (`total_funds`) and a bettable fraction
(`percent_bettable`). -/
structure BankRoll where
  total_funds : Rat
  percent_bettable : Rat
deriving DecidableEq

/-- Modelled from the spec: `credit_win(stake, profit_multiplier)` adds
the net profit `stake × profit_multiplier` to the balance (the code
calls `bankroll.win_bet(bet_amount, bet["payoff"])` with
`payoff = decimal_odds − 1`). -/
def win_bet (b : BankRoll) (amount payoff : Rat) : BankRoll :=
  { b with total_funds := b.total_funds + amount * payoff }

/-- Modelled from the spec: `debit_loss(stake)` removes the full stake
from the balance (the code calls `bankroll.lose_bet(bet_amount)`). -/
def lose_bet (b : BankRoll) (amount : Rat) : BankRoll :=
  { b with total_funds := b.total_funds - amount }

/-- Embedding of `american_to_decimal` (backtest.py lines 15-19). -/
def american_to_decimal (american_odds : Rat) : Rat :=
  if american_odds ≥ 0 then american_odds / 100 + 1
  else 100 / |american_odds| + 1

/-- Embedding of `calculate_probabilities` (model_evaluation.py):
`arena.expected_score(game.get("winner"), game.get("loser"))`, with the
arena represented by its trace plus the abstract `PredictFn`. -/
def calculate_probabilities (P : PredictFn) (tr : Trace) (game : Game) :
    Except Unit Rat :=
  P tr game.winner game.loser

/-- Log events emitted during evaluation (modelling the `logger` calls
of `_evaluate_bets_for_next_period`). -/
inductive LogEvent where
  | skipMissingOdds
  | skipMissingLabels
  | evalError (label : Label)
deriving DecidableEq

/-- Record of one `expected_score` call: the arena trace that was
current when the call was made, and the two labels. -/
structure PredCall where
  trace : Trace
  first : Option Label
  second : Option Label
deriving DecidableEq

/-- Embedding of one side's block inside the per-game loop of
`_evaluate_bets_for_next_period`: if that side's odds value is not
`None`, convert the odds, ask the strategy for a fraction (exceptions
caught and logged, the wager dropped), and emit a bet only when the
fraction is positive. -/
def sideEval (S : StrategyFn) (label opponent : Label) (oddsVal : Option Rat)
    (prob : Rat) (outcome : Bool) : List Bet × List LogEvent :=
  match oddsVal with
  | none => ([], [])
  | some odds =>
    match S prob with
    | .error _ => ([], [LogEvent.evalError label])
    | .ok f =>
      if 0 < f then
        ([⟨label, opponent, f, american_to_decimal odds - 1, 1, outcome⟩], [])
      else ([], [])

/-- Embedding of the per-game body of `_evaluate_bets_for_next_period`
(backtest.py lines 54-115): skip when an odds key is absent; skip when a
label is missing; otherwise predict once (an oracle exception is NOT
caught here and propagates), then evaluate the winner side and the loser
side independently. -/
def evalGame (P : PredictFn) (S : StrategyFn) (tr : Trace) (game : Game) :
    Except Unit (List Bet × List PredCall × List LogEvent) :=
  match game.winner_odds, game.loser_odds with
  | some wOddsVal, some lOddsVal =>
    match game.winner, game.loser with
    | some w, some l =>
      match calculate_probabilities P tr game with
      | .error e => .error e
      | .ok probW =>
        let sw := sideEval S w l wOddsVal probW true
        let sl := sideEval S l w lOddsVal (1 - probW) false
        .ok (sw.1 ++ sl.1, [⟨tr, game.winner, game.loser⟩], sw.2 ++ sl.2)
    | _, _ => .ok ([], [], [LogEvent.skipMissingLabels])
  | _, _ => .ok ([], [], [LogEvent.skipMissingOdds])

/-- Embedding of `_evaluate_bets_for_next_period`: fold over the games;
an uncaught exception (from the prediction) aborts the whole batch,
discarding bets accumulated so far, exactly as a Python exception
escaping the loop would. -/
def evalBets (P : PredictFn) (S : StrategyFn) (tr : Trace) :
    List Game → Except Unit (List Bet × List PredCall × List LogEvent)
  | [] => .ok ([], [], [])
  | game :: rest =>
    match evalGame P S tr game with
    | .error e => .error e
    | .ok (bs, cs, ls) =>
      match evalBets P S tr rest with
      | .error e => .error e
      | .ok (bs2, cs2, ls2) => .ok (bs ++ bs2, cs ++ cs2, ls ++ ls2)

/-- Embedding of one iteration of the loop in
`_execute_bets_for_current_period` (backtest.py lines 126-144):
recompute the available funds from the live balance, compute the stake,
execute only when `0 < stake ≤ available`. -/
def execBet (bank : BankRoll) (bet : Bet) : BankRoll :=
  let available := bank.total_funds * bank.percent_bettable
  let amount := available * bet.fraction
  if 0 < amount ∧ amount ≤ available then
    if bet.actual_outcome then win_bet bank amount bet.payoff
    else lose_bet bank amount
  else bank

/-- Embedding of `_execute_bets_for_current_period`: the batch is
settled sequentially, in the order the wagers were produced. -/
def execBets (bank : BankRoll) (bets : List Bet) : BankRoll :=
  bets.foldl execBet bank

/-- Embedding of `prepare_data` (data_handling.py): logs and returns the
data unchanged. -/
def prepare_data (data : List (Int × List Game)) : List (Int × List Game) :=
  data

/-- Embedding of `data.get(k, [])` on the insertion-ordered dict. -/
def lookupGames (data : List (Int × List Game)) (k : Int) : List Game :=
  match data.find? (fun e => e.1 = k) with
  | some e => e.2
  | none => []

/-- Embedding of `[(x.get("winner"), x.get("loser")) for x in games]`
(backtest.py lines 203 and 241). -/
def matchupsOf (games : List Game) : Batch :=
  games.map (fun g => (g.winner, g.loser))

/-- Embedding of the guarded arena advancement (`if matchups:
self._arena.tournament(matchups)`): the trace grows by one batch exactly
when the period has at least one game. -/
def advTrace (tr : Trace) (games : List Game) : Trace :=
  if matchupsOf games = [] then tr else tr ++ [matchupsOf games]

/-- State threaded through `run_explicit`: the arena trace, the
bankroll, the wagers carried to the next iteration
(`bets_calculated_prev_period`), plus instrumentation (prediction calls
tagged with the iteration key, visit order, evaluation logs). -/
structure ExpState where
  trace : Trace
  bank : BankRoll
  pending : List Bet
  predCalls : List (Int × PredCall)
  visited : List Int
  logs : List LogEvent
deriving DecidableEq

/-- Embedding of one iteration of the `run_explicit` loop (backtest.py
lines 184-212): evaluate candidate wagers for period `key + 1` using the
CURRENT trace (an oracle exception aborts the iteration before any
settlement); settle the carried wagers only when `threshold < key`;
advance the arena with this period's matchups; carry the new wagers. -/
def stepExplicit (P : PredictFn) (S : StrategyFn) (threshold : Int)
    (data : List (Int × List Game)) (st : ExpState) (e : Int × List Game) :
    Except Unit ExpState :=
  match evalBets P S st.trace (lookupGames data (e.1 + 1)) with
  | .error err => .error err
  | .ok (newBets, calls, evLogs) =>
    .ok ⟨advTrace st.trace e.2,
         if threshold < e.1 then execBets st.bank st.pending else st.bank,
         newBets,
         st.predCalls ++ calls.map (fun c => (e.1, c)),
         st.visited ++ [e.1],
         st.logs ++ evLogs⟩

/-- The `for week_no, games in data.items()` loop of `run_explicit`,
visiting entries in insertion order. -/
def runExplicitLoop (P : PredictFn) (S : StrategyFn) (threshold : Int)
    (data : List (Int × List Game)) :
    List (Int × List Game) → ExpState → Except Unit ExpState
  | [], st => .ok st
  | e :: rest, st =>
    match stepExplicit P S threshold data st e with
    | .error err => .error err
    | .ok st2 => runExplicitLoop P S threshold data rest st2

/-- Initial state: fresh arena trace, the given bankroll, no carried
wagers (`bets_calculated_prev_period = []`). -/
def initState (bank : BankRoll) : ExpState :=
  ⟨[], bank, [], [], [], []⟩

/-- Embedding of `Backtest.run_explicit`. -/
def run_explicit (P : PredictFn) (S : StrategyFn)
    (data : List (Int × List Game)) (bank : BankRoll) (threshold : Int) :
    Except Unit ExpState :=
  runExplicitLoop P S threshold (prepare_data data) (prepare_data data)
    (initState bank)

/-- State threaded through `run_and_project`. -/
structure ProjState where
  trace : Trace
  predCalls : List (Int × PredCall)
deriving DecidableEq

/-- The projection loop body over the next period's games: one
`calculate_probabilities` call per game (no odds or label check; an
oracle exception propagates). -/
def projCalls (P : PredictFn) (tr : Trace) :
    List Game → Except Unit (List PredCall)
  | [] => .ok []
  | game :: rest =>
    match calculate_probabilities P tr game with
    | .error e => .error e
    | .ok _ =>
      match projCalls P tr rest with
      | .error e => .error e
      | .ok cs => .ok (⟨tr, game.winner, game.loser⟩ :: cs)

/-- Embedding of one iteration of the `run_and_project` loop
(backtest.py lines 237-262): advance the arena FIRST, then compute the
projections for period `key + 1` from the already-advanced trace. -/
def stepProject (P : PredictFn) (data : List (Int × List Game))
    (st : ProjState) (e : Int × List Game) : Except Unit ProjState :=
  match projCalls P (advTrace st.trace e.2) (lookupGames data (e.1 + 1)) with
  | .error err => .error err
  | .ok calls =>
    .ok ⟨advTrace st.trace e.2,
         st.predCalls ++ calls.map (fun c => (e.1, c))⟩

/-- The `for week_no, games in data.items()` loop of `run_and_project`. -/
def runProjectLoop (P : PredictFn) (data : List (Int × List Game)) :
    List (Int × List Game) → ProjState → Except Unit ProjState
  | [], st => .ok st
  | e :: rest, st =>
    match stepProject P data st e with
    | .error err => .error err
    | .ok st2 => runProjectLoop P data rest st2

/-- Embedding of `Backtest.run_and_project`. -/
def run_and_project (P : PredictFn) (data : List (Int × List Game)) :
    Except Unit ProjState :=
  runProjectLoop P (prepare_data data) (prepare_data data) ⟨[], []⟩

/-- The nonempty matchup batches contributed by a list of dict entries,
in order: the arena trace produced by processing exactly those
entries. -/
def batchesOf (l : List (Int × List Game)) : Trace :=
  (l.map (fun e => matchupsOf e.2)).filter (fun b => b ≠ [])

/-- Concrete game: A beat B, odds +150 on A and -170 on B. -/
def gameAB : Game := ⟨some "A", some "B", some (some 150), some (some (-170))⟩

/-- Concrete deterministic oracle that always predicts one half. -/
def pConst : PredictFn := fun _ _ _ => .ok (1/2)

/-- Concrete staking strategy that always returns one tenth. -/
def sConst : StrategyFn := fun _ => .ok (1/10)

/-- Oracle whose prediction always raises. -/
def pFail : PredictFn := fun _ _ _ => .error ()

/-- Strategy whose sizing always raises. -/
def sFail : StrategyFn := fun _ => .error ()

/-- Concrete starting bankroll: balance 1000, fully bettable. -/
def bank0 : BankRoll := ⟨1000, 1⟩

/-- Input dict whose keys were inserted out of order (2 before 1). -/
def dataUnsorted : List (Int × List Game) := [(2, [gameAB]), (1, [])]

/-- Input dict with keys in increasing insertion order; period 1 is
present with an empty game list. -/
def dataSorted : List (Int × List Game) := [(1, []), (2, [gameAB])]

/-- The wager backing A produced by evaluating `gameAB` under `pConst`
and `sConst`. -/
def betA : Bet := ⟨"A", "B", 1/10, 3/2, 1, true⟩

/-- The wager backing B produced by evaluating `gameAB` under `pConst`
and `sConst`. -/
def betB : Bet := ⟨"B", "A", 1/10, 10/17, 1, false⟩

/-- Final state of `run_explicit pConst sConst dataSorted bank0 3`
(an all-warm-up run over the sorted data). -/
def finalSorted3 : ExpState :=
  ⟨[[(some "A", some "B")]], bank0, [],
   [(1, ⟨[], some "A", some "B"⟩)], [1, 2], []⟩

/-- Final state of `run_explicit pConst sConst dataSorted bank0 1`
(period 2 is a betting period and settles `betA` then `betB`). -/
def finalSorted1 : ExpState :=
  ⟨[[(some "A", some "B")]], ⟨1035, 1⟩, [],
   [(1, ⟨[], some "A", some "B"⟩)], [1, 2], []⟩

/-- Result of processing the empty period 1 of `dataSorted` from the
initial state: period 2's game is already priced (two candidate wagers)
although period 1 itself has no games. -/
def stEx1 : ExpState :=
  ⟨[], bank0, [betA, betB], [(1, ⟨[], some "A", some "B"⟩)], [1], []⟩

/-- A state carrying one pending wager (`betA`) into settlement. -/
def stPend : ExpState := ⟨[], bank0, [betA], [], [], []⟩

/-- Result of processing an empty betting period from `stPend`: the
carried wager is settled (a win of 100 × 3/2 on a 1000 balance), no
arena advancement happens. -/
def stEx5 : ExpState := ⟨[], ⟨1150, 1⟩, [], [], [5], []⟩

/-- Input data for the projection-mode comparison. -/
def dataP : List (Int × List Game) := [(1, [gameAB]), (2, [gameAB])]

/-- Result of the first `run_and_project` iteration on `dataP`: the
prediction for period 2's game is made AFTER period 1's batch entered
the trace. -/
def projSt2 : ProjState :=
  ⟨[[(some "A", some "B")]],
   [(1, ⟨[[(some "A", some "B")]], some "A", some "B"⟩)]⟩

/-- A game whose `winner_odds` key is absent. -/
def gameNoOdds : Game := ⟨some "A", some "B", none, some (some 150)⟩

/-- A game with both odds keys present but no winner label. -/
def gameNoLabel : Game := ⟨none, some "B", some (some 150), some (some (-170))⟩

section EvalLemmas

variable (P : PredictFn) (S : StrategyFn) (tr : Trace)

lemma sideEval_mem_spec (label opponent : Label) (odds : Rat) (prob : Rat)
    (outcome : Bool) :
    ∀ b ∈ (sideEval S label opponent (some odds) prob outcome).1,
      0 < b.fraction ∧ b.payoff = american_to_decimal odds - 1 ∧
        b.actual_outcome = outcome := by
  intro b hb
  cases hS : S prob with
  | error e => simp [sideEval, hS] at hb
  | ok f =>
    by_cases hf : 0 < f
    · simp [sideEval, hS, hf] at hb
      subst hb
      exact ⟨hf, rfl, rfl⟩
    · simp [sideEval, hS, hf] at hb

lemma sideEval_fraction_pos (label opponent : Label) (oddsVal : Option Rat)
    (prob : Rat) (outcome : Bool) :
    ∀ b ∈ (sideEval S label opponent oddsVal prob outcome).1, 0 < b.fraction := by
  intro b hb
  cases oddsVal with
  | none => simp [sideEval] at hb
  | some odds => exact (sideEval_mem_spec S label opponent odds prob outcome b hb).1

lemma evalGame_fraction_pos (g : Game) (out)
    (h : evalGame P S tr g = .ok out) : ∀ b ∈ out.1, 0 < b.fraction := by
  intro b hb
  obtain ⟨gw, gl, gwo, glo⟩ := g
  cases gwo with
  | none =>
    simp only [evalGame] at h
    injection h with h
    subst h
    simp at hb
  | some wOddsVal =>
    cases glo with
    | none =>
      simp only [evalGame] at h
      injection h with h
      subst h
      simp at hb
    | some lOddsVal =>
      cases gw with
      | none =>
        simp only [evalGame] at h
        injection h with h
        subst h
        simp at hb
      | some w =>
        cases gl with
        | none =>
          simp only [evalGame] at h
          injection h with h
          subst h
          simp at hb
        | some l =>
          cases hp : calculate_probabilities P tr ⟨some w, some l, some wOddsVal, some lOddsVal⟩ with
          | error e =>
            simp only [evalGame, hp] at h
            exact Except.noConfusion h
          | ok probW =>
            simp only [evalGame, hp] at h
            injection h with h
            subst h
            simp only [List.mem_append] at hb
            rcases hb with hb | hb
            · exact sideEval_fraction_pos S w l wOddsVal probW true b hb
            · exact sideEval_fraction_pos S l w lOddsVal (1 - probW) false b hb

lemma evalGame_calls_trace (g : Game) (out)
    (h : evalGame P S tr g = .ok out) : ∀ c ∈ out.2.1, c.trace = tr := by
  intro c hc
  obtain ⟨gw, gl, gwo, glo⟩ := g
  cases gwo with
  | none =>
    simp only [evalGame] at h
    injection h with h
    subst h
    simp at hc
  | some wOddsVal =>
    cases glo with
    | none =>
      simp only [evalGame] at h
      injection h with h
      subst h
      simp at hc
    | some lOddsVal =>
      cases gw with
      | none =>
        simp only [evalGame] at h
        injection h with h
        subst h
        simp at hc
      | some w =>
        cases gl with
        | none =>
          simp only [evalGame] at h
          injection h with h
          subst h
          simp at hc
        | some l =>
          cases hp : calculate_probabilities P tr ⟨some w, some l, some wOddsVal, some lOddsVal⟩ with
          | error e =>
            simp only [evalGame, hp] at h
            exact Except.noConfusion h
          | ok probW =>
            simp only [evalGame, hp] at h
            injection h with h
            subst h
            simp at hc
            subst hc
            rfl

lemma evalBets_cons (g : Game) (gs : List Game) (o1 o2)
    (h1 : evalGame P S tr g = .ok o1) (h2 : evalBets P S tr gs = .ok o2) :
    evalBets P S tr (g :: gs) =
      .ok (o1.1 ++ o2.1, o1.2.1 ++ o2.2.1, o1.2.2 ++ o2.2.2) := by
  obtain ⟨bs1, cs1, ls1⟩ := o1
  obtain ⟨bs2, cs2, ls2⟩ := o2
  simp only [evalBets, h1, h2]

lemma evalBets_fraction_pos : ∀ (gs : List Game) out,
    evalBets P S tr gs = .ok out → ∀ b ∈ out.1, 0 < b.fraction := by
  intro gs
  induction gs with
  | nil =>
    intro out h b hb
    simp only [evalBets] at h
    injection h with h
    subst h
    simp at hb
  | cons g gs ih =>
    intro out h b hb
    cases h1 : evalGame P S tr g with
    | error e =>
      simp only [evalBets, h1] at h
      exact Except.noConfusion h
    | ok o1 =>
      cases h2 : evalBets P S tr gs with
      | error e =>
        obtain ⟨bs1, cs1, ls1⟩ := o1
        simp only [evalBets, h1, h2] at h
        exact Except.noConfusion h
      | ok o2 =>
        obtain ⟨bs1, cs1, ls1⟩ := o1
        obtain ⟨bs2, cs2, ls2⟩ := o2
        simp only [evalBets, h1, h2] at h
        injection h with h
        subst h
        simp only [List.mem_append] at hb
        rcases hb with hb | hb
        · exact evalGame_fraction_pos P S tr g _ h1 b hb
        · exact ih _ h2 b hb

lemma evalBets_calls_trace : ∀ (gs : List Game) out,
    evalBets P S tr gs = .ok out → ∀ c ∈ out.2.1, c.trace = tr := by
  intro gs
  induction gs with
  | nil =>
    intro out h c hc
    simp only [evalBets] at h
    injection h with h
    subst h
    simp at hc
  | cons g gs ih =>
    intro out h c hc
    cases h1 : evalGame P S tr g with
    | error e =>
      simp only [evalBets, h1] at h
      exact Except.noConfusion h
    | ok o1 =>
      cases h2 : evalBets P S tr gs with
      | error e =>
        obtain ⟨bs1, cs1, ls1⟩ := o1
        simp only [evalBets, h1, h2] at h
        exact Except.noConfusion h
      | ok o2 =>
        obtain ⟨bs1, cs1, ls1⟩ := o1
        obtain ⟨bs2, cs2, ls2⟩ := o2
        simp only [evalBets, h1, h2] at h
        injection h with h
        subst h
        simp only [List.mem_append] at hc
        rcases hc with hc | hc
        · exact evalGame_calls_trace P S tr g _ h1 c hc
        · exact ih _ h2 c hc

lemma evalGame_ok_of_predict_ok (g : Game)
    (hP : ∀ a b, ∃ r, P tr a b = .ok r) :
    ∃ out, evalGame P S tr g = .ok out := by
  obtain ⟨gw, gl, gwo, glo⟩ := g
  cases gwo with
  | none => exact ⟨_, rfl⟩
  | some wOddsVal =>
    cases glo with
    | none => exact ⟨_, rfl⟩
    | some lOddsVal =>
      cases gw with
      | none => exact ⟨_, rfl⟩
      | some w =>
        cases gl with
        | none => exact ⟨_, rfl⟩
        | some l =>
          obtain ⟨r, hr⟩ := hP (some w) (some l)
          refine ⟨((sideEval S w l wOddsVal r true).1 ++ (sideEval S l w lOddsVal (1 - r) false).1,
                   [⟨tr, some w, some l⟩],
                   (sideEval S w l wOddsVal r true).2 ++ (sideEval S l w lOddsVal (1 - r) false).2), ?_⟩
          simp only [evalGame, calculate_probabilities] at hr ⊢
          simp [hr]

lemma evalBets_ok_of_predict_ok (hP : ∀ a b, ∃ r, P tr a b = .ok r) :
    ∀ gs : List Game, ∃ out, evalBets P S tr gs = .ok out := by
  intro gs
  induction gs with
  | nil => exact ⟨_, rfl⟩
  | cons g gs ih =>
    obtain ⟨o1, h1⟩ := evalGame_ok_of_predict_ok P S tr g hP
    obtain ⟨o2, h2⟩ := ih
    exact ⟨_, evalBets_cons P S tr g gs o1 o2 h1 h2⟩

lemma projCalls_trace : ∀ (gs : List Game) cs,
    projCalls P tr gs = .ok cs → ∀ c ∈ cs, c.trace = tr := by
  intro gs
  induction gs with
  | nil =>
    intro cs h c hc
    simp only [projCalls] at h
    injection h with h
    subst h
    simp at hc
  | cons g gs ih =>
    intro cs h c hc
    cases hp : calculate_probabilities P tr g with
    | error e =>
      simp only [projCalls, hp] at h
      exact Except.noConfusion h
    | ok r =>
      cases h2 : projCalls P tr gs with
      | error e =>
        simp only [projCalls, hp, h2] at h
        exact Except.noConfusion h
      | ok cs2 =>
        simp only [projCalls, hp, h2] at h
        injection h with h
        subst h
        rcases List.mem_cons.mp hc with hc | hc
        · subst hc; rfl
        · exact ih cs2 h2 c hc

end EvalLemmas

section GameLemmas

variable (P : PredictFn) (S : StrategyFn) (tr : Trace)

lemma evalGame_missing_odds (g : Game)
    (hg : g.winner_odds = none ∨ g.loser_odds = none) :
    evalGame P S tr g = .ok ([], [], [LogEvent.skipMissingOdds]) := by
  obtain ⟨gw, gl, gwo, glo⟩ := g
  cases gwo with
  | none => rfl
  | some w0 =>
    cases glo with
    | none => rfl
    | some l0 =>
      exfalso
      rcases hg with hg | hg <;> simp at hg

lemma evalGame_missing_label (g : Game)
    (hwo : g.winner_odds ≠ none) (hlo : g.loser_odds ≠ none)
    (hlab : g.winner = none ∨ g.loser = none) :
    evalGame P S tr g = .ok ([], [], [LogEvent.skipMissingLabels]) := by
  obtain ⟨gw, gl, gwo, glo⟩ := g
  cases gwo with
  | none => exact absurd rfl hwo
  | some w0 =>
    cases glo with
    | none => exact absurd rfl hlo
    | some l0 =>
      cases gw with
      | none => rfl
      | some w =>
        cases gl with
        | none => rfl
        | some l =>
          exfalso
          rcases hlab with h | h <;> simp at h

end GameLemmas

section StepLemmas

lemma batchesOf_cons (e : Int × List Game) (rest : List (Int × List Game)) :
    batchesOf (e :: rest) =
      (if matchupsOf e.2 = [] then [] else [matchupsOf e.2]) ++ batchesOf rest := by
  by_cases h : matchupsOf e.2 = [] <;> simp [batchesOf, h]

lemma advTrace_eq (tr : Trace) (games : List Game) :
    advTrace tr games =
      tr ++ (if matchupsOf games = [] then [] else [matchupsOf games]) := by
  by_cases h : matchupsOf games = [] <;> simp [advTrace, h]

lemma stepExplicit_ok_spec (P : PredictFn) (S : StrategyFn) (threshold : Int)
    (data : List (Int × List Game)) (st : ExpState) (e : Int × List Game)
    (st2 : ExpState) (h : stepExplicit P S threshold data st e = .ok st2) :
    ∃ bs cs ls,
      evalBets P S st.trace (lookupGames data (e.1 + 1)) = .ok (bs, cs, ls) ∧
      st2 = ⟨advTrace st.trace e.2,
             if threshold < e.1 then execBets st.bank st.pending else st.bank,
             bs, st.predCalls ++ cs.map (fun c => (e.1, c)),
             st.visited ++ [e.1], st.logs ++ ls⟩ := by
  cases hev : evalBets P S st.trace (lookupGames data (e.1 + 1)) with
  | error err =>
    simp only [stepExplicit, hev] at h
    exact Except.noConfusion h
  | ok out =>
    obtain ⟨bs, cs, ls⟩ := out
    simp only [stepExplicit, hev] at h
    injection h with h
    exact ⟨bs, cs, ls, rfl, h.symm⟩

lemma stepProject_ok_spec (P : PredictFn) (data : List (Int × List Game))
    (st : ProjState) (e : Int × List Game) (st2 : ProjState)
    (h : stepProject P data st e = .ok st2) :
    ∃ calls,
      projCalls P (advTrace st.trace e.2) (lookupGames data (e.1 + 1)) = .ok calls ∧
      st2 = ⟨advTrace st.trace e.2,
             st.predCalls ++ calls.map (fun c => (e.1, c))⟩ := by
  cases hpc : projCalls P (advTrace st.trace e.2) (lookupGames data (e.1 + 1)) with
  | error err =>
    simp only [stepProject, hpc] at h
    exact Except.noConfusion h
  | ok calls =>
    simp only [stepProject, hpc] at h
    injection h with h
    exact ⟨calls, rfl, h.symm⟩

end StepLemmas

section RunLemmas

variable (P : PredictFn) (S : StrategyFn) (threshold : Int)
variable (data : List (Int × List Game))

lemma runLoop_visited :
    ∀ (entries : List (Int × List Game)) (st final : ExpState),
      runExplicitLoop P S threshold data entries st = .ok final →
      final.visited = st.visited ++ entries.map Prod.fst := by
  intro entries
  induction entries with
  | nil =>
    intro st final h
    simp only [runExplicitLoop] at h
    injection h with h
    subst h
    simp
  | cons e rest ih =>
    intro st final h
    cases hstep : stepExplicit P S threshold data st e with
    | error err =>
      simp only [runExplicitLoop, hstep] at h
      exact Except.noConfusion h
    | ok st2 =>
      simp only [runExplicitLoop, hstep] at h
      obtain ⟨bs, cs, ls, hev, hst2⟩ :=
        stepExplicit_ok_spec P S threshold data st e st2 hstep
      rw [ih st2 final h, hst2]
      simp

lemma runLoop_calls :
    ∀ (entries : List (Int × List Game)) (st final : ExpState),
      runExplicitLoop P S threshold data entries st = .ok final →
      ∀ kc ∈ final.predCalls, kc ∈ st.predCalls ∨
        ∃ pre games post, entries = pre ++ (kc.1, games) :: post ∧
          kc.2.trace = st.trace ++ batchesOf pre := by
  intro entries
  induction entries with
  | nil =>
    intro st final h kc hkc
    simp only [runExplicitLoop] at h
    injection h with h
    subst h
    exact Or.inl hkc
  | cons e rest ih =>
    intro st final h kc hkc
    obtain ⟨ek, egames⟩ := e
    cases hstep : stepExplicit P S threshold data st (ek, egames) with
    | error err =>
      simp only [runExplicitLoop, hstep] at h
      exact Except.noConfusion h
    | ok st2 =>
      simp only [runExplicitLoop, hstep] at h
      obtain ⟨bs, cs, ls, hev, hst2⟩ :=
        stepExplicit_ok_spec P S threshold data st (ek, egames) st2 hstep
      subst hst2
      rcases ih _ final h kc hkc with hin | ⟨pre, games, post, hsplit, htr⟩
      · simp only [List.mem_append, List.mem_map] at hin
        rcases hin with hin | ⟨c, hc, hkc2⟩
        · exact Or.inl hin
        · right
          subst hkc2
          refine ⟨[], egames, rest, rfl, ?_⟩
          have hct := evalBets_calls_trace P S st.trace _ _ hev c hc
          simpa [batchesOf] using hct
      · right
        refine ⟨(ek, egames) :: pre, games, post, by rw [hsplit, List.cons_append], ?_⟩
        rw [htr]
        show advTrace st.trace egames ++ batchesOf pre = _
        rw [advTrace_eq, batchesOf_cons, List.append_assoc]

end RunLemmas

section SortedLemmas

lemma filter_lt_of_sorted_split (pre post : List (Int × List Game)) (k : Int)
    (games : List Game)
    (hs : List.Pairwise (fun a b => a.1 < b.1) (pre ++ (k, games) :: post)) :
    (pre ++ (k, games) :: post).filter (fun e => decide (e.1 < k)) = pre := by
  rw [List.filter_append]
  have h1 : pre.filter (fun e => decide (e.1 < k)) = pre := by
    rw [List.filter_eq_self]
    intro a ha
    have := (List.pairwise_append.mp hs).2.2 a ha (k, games)
      (List.mem_cons_self _ _)
    simpa using this
  have h2 : ((k, games) :: post).filter (fun e => decide (e.1 < k)) = [] := by
    rw [List.filter_eq_nil_iff]
    intro a ha
    rcases List.mem_cons.mp ha with h | h
    · subst h; simp
    · have hk := (List.pairwise_cons.mp (List.pairwise_append.mp hs).2.1).1 a h
      simp only [decide_eq_true_eq]
      simp only [] at hk
      omega
  rw [h1, h2, List.append_nil]

end SortedLemmas

section ConcreteLemmas

lemma evalGame_gameAB (tr : Trace) :
    evalGame pConst sConst tr gameAB =
      .ok ([betA, betB], [⟨tr, some "A", some "B"⟩], []) := by
  norm_num [evalGame, calculate_probabilities, pConst, sConst, sideEval,
    gameAB, betA, betB, american_to_decimal]

lemma evalBets_gameAB (tr : Trace) :
    evalBets pConst sConst tr [gameAB] =
      .ok ([betA, betB], [⟨tr, some "A", some "B"⟩], []) := by
  simp [evalBets, evalGame_gameAB]

lemma execBet_betA : execBet bank0 betA = ⟨1150, 1⟩ := by
  norm_num [execBet, betA, bank0, win_bet]

lemma execBet_betB : execBet ⟨1150, 1⟩ betB = ⟨1035, 1⟩ := by
  norm_num [execBet, betB, lose_bet]

lemma execBets_pair : execBets bank0 [betA, betB] = ⟨1035, 1⟩ := by
  show execBet (execBet bank0 betA) betB = ⟨1035, 1⟩
  rw [execBet_betA, execBet_betB]

lemma step_warmup3 :
    stepExplicit pConst sConst 3 dataSorted (initState bank0) (1, []) =
      .ok stEx1 := by
  have hl : lookupGames dataSorted ((1 : Int) + 1) = [gameAB] := rfl
  simp only [stepExplicit, initState, hl, evalBets_gameAB]
  norm_num [advTrace, matchupsOf, stEx1]

lemma step_advance3 :
    stepExplicit pConst sConst 3 dataSorted stEx1 (2, [gameAB]) =
      .ok finalSorted3 := by
  have hl : lookupGames dataSorted ((2 : Int) + 1) = [] := rfl
  simp only [stepExplicit, stEx1, hl]
  norm_num [evalBets, advTrace, matchupsOf, gameAB, finalSorted3, stEx1, bank0]

lemma run_dataSorted_thr3 :
    run_explicit pConst sConst dataSorted bank0 3 = .ok finalSorted3 := by
  show runExplicitLoop pConst sConst 3 dataSorted
      ((1, ([] : List Game)) :: (2, [gameAB]) :: []) (initState bank0) =
    .ok finalSorted3
  simp only [runExplicitLoop, step_warmup3, step_advance3]

lemma step_warmup1 :
    stepExplicit pConst sConst 1 dataSorted (initState bank0) (1, []) =
      .ok stEx1 := by
  have hl : lookupGames dataSorted ((1 : Int) + 1) = [gameAB] := rfl
  simp only [stepExplicit, initState, hl, evalBets_gameAB]
  norm_num [advTrace, matchupsOf, stEx1]

lemma step_advance1 :
    stepExplicit pConst sConst 1 dataSorted stEx1 (2, [gameAB]) =
      .ok finalSorted1 := by
  have hl : lookupGames dataSorted ((2 : Int) + 1) = [] := rfl
  simp only [stepExplicit, stEx1, hl]
  norm_num [evalBets, advTrace, matchupsOf, gameAB, finalSorted1, execBets_pair]

lemma run_dataSorted_thr1 :
    run_explicit pConst sConst dataSorted bank0 1 = .ok finalSorted1 := by
  show runExplicitLoop pConst sConst 1 dataSorted
      ((1, ([] : List Game)) :: (2, [gameAB]) :: []) (initState bank0) =
    .ok finalSorted1
  simp only [runExplicitLoop, step_warmup1, step_advance1]

lemma step_stPend_settle :
    stepExplicit pConst sConst 1 dataSorted stPend (5, []) = .ok stEx5 := by
  have hl : lookupGames dataSorted ((5 : Int) + 1) = [] := rfl
  simp only [stepExplicit, stPend, hl]
  norm_num [evalBets, advTrace, matchupsOf, stEx5, execBet_betA, execBets]

end ConcreteLemmas

/-- Claim C1, counterexample. The claim asserts that in every run the
probability used to size a wager on a period p+1 game comes from arena
state reflecting only periods strictly before p. The run below feeds
`run_explicit` a dict whose keys were inserted as 2, then 1 (`dict`
iteration is insertion order, and the code never sorts). Its single
sizing prediction is made while processing key p = 1, prices period
p+1 = 2's game, and uses the trace `[[(some A, some B)]]` — which is
exactly period 2's own advancement batch (third conjunct): the sizing
probability incorporates period 2's own result. -/
theorem c1_counterexample :
    (run_explicit pConst sConst dataUnsorted bank0 3).map ExpState.predCalls =
      .ok [(1, ⟨[[(some "A", some "B")]], some "A", some "B"⟩)] ∧
    ¬ List.Pairwise (fun a b => a.1 < b.1) dataUnsorted ∧
    matchupsOf (lookupGames dataUnsorted 2) = [(some "A", some "B")] :=
  ⟨rfl, by decide, rfl⟩

/-- Claim C1, amended: PROVIDED the input mapping's keys are in strictly
increasing insertion order, every sizing prediction recorded by
`run_explicit` while processing period p (pricing period p+1's games)
uses arena state consisting of exactly the advancement batches of the
periods strictly before p — one-period staleness, never incorporating
period p's or any later period's results. -/
theorem c1_staleness_sorted (P : PredictFn) (S : StrategyFn) (threshold : Int)
    (data : List (Int × List Game)) (bank : BankRoll) (final : ExpState)
    (hsorted : List.Pairwise (fun a b => a.1 < b.1) data)
    (hrun : run_explicit P S data bank threshold = .ok final) :
    ∀ kc ∈ final.predCalls,
      kc.2.trace = batchesOf (data.filter (fun e => decide (e.1 < kc.1))) := by
  intro kc hkc
  rcases runLoop_calls P S threshold data data (initState bank) final hrun kc hkc
    with hin | ⟨pre, games, post, hsplit, htr⟩
  · simp [initState] at hin
  · rw [hsplit] at hsorted ⊢
    rw [filter_lt_of_sorted_split pre post kc.1 games hsorted]
    rw [htr]
    simp [initState]

/-- Claim C1, witness: the amended theorem applied to the sorted
two-period run, whose single sizing prediction (made in period 1 for
period 2's game) used the empty trace. -/
theorem c1_staleness_sorted_witness :
    ((1 : Int), (⟨[], some "A", some "B"⟩ : PredCall)).2.trace =
      batchesOf (dataSorted.filter
        (fun e => decide (e.1 < ((1 : Int), (⟨[], some "A", some "B"⟩ : PredCall)).1))) :=
  c1_staleness_sorted pConst sConst 3 dataSorted bank0 finalSorted3
    (by decide) run_dataSorted_thr3 ((1 : Int), ⟨[], some "A", some "B"⟩)
    (by decide)

/-- Claim C2: the Settlement Engine settles the carried batch
sequentially in production order (conjunct 1); for each wager the
available amount is recomputed from the live balance, the stake is
`available × fraction`, and the bet executes exactly when
`0 < stake ≤ available`, otherwise the bankroll is untouched
(conjunct 2); a win credits `stake × payoff` where the stored payoff is
`decimal − 1` (conjuncts 3 and 6), a loss debits the full stake
(conjunct 4); the Evaluator never emits a wager with `fraction ≤ 0`
(conjunct 5); and in a betting period the step settles exactly the
carried batch against the current bankroll (conjunct 7). -/
theorem c2_settlement_spec :
    (∀ (bank : BankRoll) (b : Bet) (bs : List Bet),
        execBets bank (b :: bs) = execBets (execBet bank b) bs) ∧
    (∀ (bank : BankRoll) (bet : Bet),
        (0 < bank.total_funds * bank.percent_bettable * bet.fraction ∧
            bank.total_funds * bank.percent_bettable * bet.fraction ≤
              bank.total_funds * bank.percent_bettable →
          execBet bank bet =
            if bet.actual_outcome then
              win_bet bank
                (bank.total_funds * bank.percent_bettable * bet.fraction)
                bet.payoff
            else
              lose_bet bank
                (bank.total_funds * bank.percent_bettable * bet.fraction)) ∧
        (¬ (0 < bank.total_funds * bank.percent_bettable * bet.fraction ∧
              bank.total_funds * bank.percent_bettable * bet.fraction ≤
                bank.total_funds * bank.percent_bettable) →
          execBet bank bet = bank)) ∧
    (∀ (bank : BankRoll) (amount payoff : Rat),
        win_bet bank amount payoff =
          ⟨bank.total_funds + amount * payoff, bank.percent_bettable⟩) ∧
    (∀ (bank : BankRoll) (amount : Rat),
        lose_bet bank amount =
          ⟨bank.total_funds - amount, bank.percent_bettable⟩) ∧
    (∀ (P : PredictFn) (S : StrategyFn) (tr : Trace) (gs : List Game) out,
        evalBets P S tr gs = .ok out → ∀ b ∈ out.1, 0 < b.fraction) ∧
    (∀ (S : StrategyFn) (label opponent : Label) (odds prob : Rat)
        (outcome : Bool),
        ∀ b ∈ (sideEval S label opponent (some odds) prob outcome).1,
          b.payoff = american_to_decimal odds - 1) ∧
    (∀ (P : PredictFn) (S : StrategyFn) (threshold : Int)
        (data : List (Int × List Game)) (st : ExpState)
        (e : Int × List Game) (st2 : ExpState),
        threshold < e.1 → stepExplicit P S threshold data st e = .ok st2 →
        st2.bank = execBets st.bank st.pending) := by
  refine ⟨fun bank b bs => rfl, ?_, fun bank amount payoff => rfl,
    fun bank amount => rfl, evalBets_fraction_pos, ?_, ?_⟩
  · intro bank bet
    constructor
    · intro h
      simp only [execBet]
      rw [if_pos h]
    · intro h
      simp only [execBet]
      rw [if_neg h]
  · intro S label opponent odds prob outcome b hb
    exact (sideEval_mem_spec S label opponent odds prob outcome b hb).2.1
  · intro P S threshold data st e st2 hthr h
    obtain ⟨bs, cs, ls, hev, hst2⟩ :=
      stepExplicit_ok_spec P S threshold data st e st2 h
    subst hst2
    show (if threshold < e.1 then execBets st.bank st.pending else st.bank) = _
    rw [if_pos hthr]

/-- Claim C2, witness: conjunct 7 applied to a concrete betting-period
step that settles one carried wager (balance 1000 → 1150). -/
theorem c2_settlement_spec_witness :
    stEx5.bank = execBets stPend.bank stPend.pending :=
  c2_settlement_spec.2.2.2.2.2.2 pConst sConst 1 dataSorted stPend (5, [])
    stEx5 (by decide) step_stPend_settle

/-- Claim C3, counterexample. The claim asserts that run_explicit visits
periods in strictly increasing key order for EVERY input mapping, and
that the WARMUP-to-BETTING transition never reverses. Feeding a dict
whose keys were inserted as 2, then 1 makes the run visit 2 before 1
(dict iteration is insertion order; the code never sorts), and with
threshold 1 the state sequence is BETTING then WARMUP — a reversal. -/
theorem c3_counterexample :
    (run_explicit pConst sConst dataUnsorted bank0 1).map ExpState.visited =
      .ok [2, 1] ∧
    ¬ List.Pairwise (fun a b : Int => a < b) [2, 1] ∧
    ([2, 1] : List Int).map (fun k => decide ((1 : Int) < k)) = [true, false] :=
  ⟨rfl, by decide, by decide⟩

/-- Claim C3, amended: run_explicit visits the periods in INSERTION
order (the visit log equals the input's key sequence); when that key
sequence is strictly increasing, the per-period betting flag
(`threshold < key`) is monotone along the visit order, so the
WARMUP-to-BETTING transition happens at most once and never reverses. -/
theorem c3_visit_order (P : PredictFn) (S : StrategyFn) (threshold : Int)
    (data : List (Int × List Game)) (bank : BankRoll) (final : ExpState)
    (hrun : run_explicit P S data bank threshold = .ok final)
    (hsorted : List.Pairwise (fun a b => a.1 < b.1) data) :
    final.visited = data.map Prod.fst ∧
    List.Pairwise (fun a b => a = true → b = true)
      (final.visited.map (fun k => decide (threshold < k))) := by
  have hv := runLoop_visited P S threshold data data (initState bank) final hrun
  simp only [initState, List.nil_append] at hv
  refine ⟨hv, ?_⟩
  rw [hv, List.map_map, List.pairwise_map]
  exact hsorted.imp (fun {_a _b} hab hd => by
    simp only [Function.comp_apply, decide_eq_true_eq] at hd ⊢
    omega)

/-- Claim C3, witness: the amended theorem applied to the sorted
two-period run with threshold 1 (one WARMUP period, one BETTING
period). -/
theorem c3_visit_order_witness :
    finalSorted1.visited = dataSorted.map Prod.fst ∧
    List.Pairwise (fun a b => a = true → b = true)
      (finalSorted1.visited.map (fun k => decide ((1 : Int) < k))) :=
  c3_visit_order pConst sConst 1 dataSorted bank0 finalSorted1
    run_dataSorted_thr1 (by decide)

/-- Claim C4: processing a period whose key is ≤ the warm-up threshold
leaves the bankroll unchanged, still advances the arena with that
period's matchups whenever it has any, and replaces the carried wagers
with the freshly evaluated ones (the carried wagers are discarded
unsettled). -/
theorem c4_warmup_frame (P : PredictFn) (S : StrategyFn) (threshold : Int)
    (data : List (Int × List Game)) (st : ExpState) (k : Int)
    (games : List Game) (st2 : ExpState)
    (hk : k ≤ threshold)
    (hstep : stepExplicit P S threshold data st (k, games) = .ok st2) :
    st2.bank = st.bank ∧
    st2.trace = advTrace st.trace games ∧
    (matchupsOf games ≠ [] → st2.trace = st.trace ++ [matchupsOf games]) ∧
    (evalBets P S st.trace (lookupGames data (k + 1))).map (fun out => out.1) =
      .ok st2.pending := by
  obtain ⟨bs, cs, ls, hev, hst2⟩ :=
    stepExplicit_ok_spec P S threshold data st (k, games) st2 hstep
  dsimp only at hev
  subst hst2
  refine ⟨?_, rfl, ?_, ?_⟩
  · show (if threshold < (k, games).1 then execBets st.bank st.pending
      else st.bank) = st.bank
    rw [if_neg (not_lt.mpr hk)]
  · intro hne
    show advTrace st.trace (k, games).2 = st.trace ++ [matchupsOf games]
    rw [advTrace_eq]
    simp [hne]
  · rw [hev]
    rfl

/-- Claim C4, witness: the warm-up period 1 of `dataSorted` (threshold
3) leaves the bankroll at its initial value while already pricing
period 2's game. -/
theorem c4_warmup_frame_witness :
    stEx1.bank = (initState bank0).bank ∧
    stEx1.trace = advTrace (initState bank0).trace [] ∧
    (matchupsOf ([] : List Game) ≠ [] →
      stEx1.trace = (initState bank0).trace ++ [matchupsOf ([] : List Game)]) ∧
    (evalBets pConst sConst (initState bank0).trace
        (lookupGames dataSorted (1 + 1))).map (fun out => out.1) =
      .ok stEx1.pending :=
  c4_warmup_frame pConst sConst 3 dataSorted (initState bank0) 1 [] stEx1
    (by decide) step_warmup3

/-- Claim C5, counterexample. The claim asserts an empty period's
iteration produces no new candidate wagers. Processing the empty period
1 of `dataSorted` evaluates period 2's games and produces two candidate
wagers, so the claim's "no new candidate wagers during that period's
iteration" is false (the spec's intent — no wagers are created FOR an
empty period's own games — is the amended statement). -/
theorem c5_counterexample :
    (1, ([] : List Game)) ∈ dataSorted ∧
    stepExplicit pConst sConst 3 dataSorted (initState bank0) (1, []) =
      .ok stEx1 ∧
    stEx1.pending ≠ [] :=
  ⟨by decide, step_warmup3, by decide⟩

/-- Claim C5, amended: a period key present with an empty game list
triggers no arena advancement (the trace is unchanged); it still
participates in period ordering — the wagers carried from the prior
iteration are settled exactly when it is a BETTING period; and
evaluating an empty game list (an empty period priced as "next period")
produces no candidate wagers. New wagers for the FOLLOWING period may
still be produced during the empty period's own iteration. -/
theorem c5_empty_period (P : PredictFn) (S : StrategyFn) (threshold : Int)
    (data : List (Int × List Game)) (st : ExpState) (k : Int) (st2 : ExpState)
    (hstep : stepExplicit P S threshold data st (k, ([] : List Game)) = .ok st2) :
    st2.trace = st.trace ∧
    st2.bank = (if threshold < k then execBets st.bank st.pending
      else st.bank) ∧
    (∀ (P2 : PredictFn) (S2 : StrategyFn) (tr : Trace),
        evalBets P2 S2 tr ([] : List Game) = .ok ([], [], [])) := by
  obtain ⟨bs, cs, ls, hev, hst2⟩ :=
    stepExplicit_ok_spec P S threshold data st (k, []) st2 hstep
  subst hst2
  refine ⟨?_, rfl, fun _ _ _ => rfl⟩
  show advTrace st.trace ([] : List Game) = st.trace
  simp [advTrace, matchupsOf]

/-- Claim C5, witness: an empty BETTING period (key 5, threshold 1)
settles the carried wager (1000 → 1150) and leaves the trace
unchanged. -/
theorem c5_empty_period_witness :
    stEx5.trace = stPend.trace ∧
    stEx5.bank = (if (1 : Int) < 5 then execBets stPend.bank stPend.pending
      else stPend.bank) ∧
    (∀ (P2 : PredictFn) (S2 : StrategyFn) (tr : Trace),
        evalBets P2 S2 tr ([] : List Game) = .ok ([], [], [])) :=
  c5_empty_period pConst sConst 1 dataSorted stPend 5 stEx5 step_stPend_settle

/-- Claim C6, counterexample. The claim asserts that an exception from
the Rating Oracle's probability prediction is caught at single-wager
granularity. In the code `calculate_probabilities` is called OUTSIDE
the try/except blocks, so a predicting oracle that raises aborts the
whole evaluation batch (first conjunct: the two-game batch returns an
error, not a partial result) and the whole run (second conjunct). -/
theorem c6_counterexample :
    evalBets pFail sConst [] [gameAB, gameAB] = .error () ∧
    run_explicit pFail sConst dataSorted bank0 3 = .error () :=
  ⟨rfl, rfl⟩

/-- Claim C6, amended: exceptions raised by the STAKING oracle while
sizing a single wager are caught and logged at single-wager granularity
— the wager is dropped and evaluation continues with the other side and
the remaining games (conjuncts 2 and 3); as long as the Rating Oracle's
predictions do not raise, evaluation of a batch never aborts
(conjunct 1). An exception from the Rating Oracle's prediction itself,
however, propagates (see the counterexample). -/
theorem c6_sizing_errors_contained (P : PredictFn) (S : StrategyFn)
    (tr : Trace) (hP : ∀ a b, ∃ r, P tr a b = .ok r) :
    (∀ gs : List Game, ∃ out, evalBets P S tr gs = .ok out) ∧
    (∀ (label opponent : Label) (odds prob : Rat) (outcome : Bool),
        S prob = .error () →
        sideEval S label opponent (some odds) prob outcome =
          ([], [LogEvent.evalError label])) ∧
    (∀ (g : Game) (gs : List Game) o1 o2,
        evalGame P S tr g = .ok o1 → evalBets P S tr gs = .ok o2 →
        evalBets P S tr (g :: gs) =
          .ok (o1.1 ++ o2.1, o1.2.1 ++ o2.2.1, o1.2.2 ++ o2.2.2)) := by
  refine ⟨evalBets_ok_of_predict_ok P S tr hP, ?_, evalBets_cons P S tr⟩
  intro label opponent odds prob outcome hS
  simp [sideEval, hS]

/-- Claim C6, witness: with a total oracle and an always-raising staking
strategy, evaluating a game still succeeds (both wagers dropped, batch
intact). -/
theorem c6_sizing_errors_contained_witness :
    ∃ out, evalBets pConst sFail [] [gameAB] = .ok out :=
  (c6_sizing_errors_contained pConst sFail []
    (fun _a _b => ⟨1/2, rfl⟩)).1 [gameAB]

/-- Claim C7: a game missing either odds key is skipped with a log
entry and produces no candidate wager (conjunct 1); a game with both
odds keys but a missing winner or loser label is skipped with a log
entry and produces no candidate wager (conjunct 2); and a skipped game
never aborts evaluation of the rest of the batch — the batch result is
the rest's result plus the skip log (conjunct 3). -/
theorem c7_malformed_skipped (P : PredictFn) (S : StrategyFn) (tr : Trace) :
    (∀ g : Game, g.winner_odds = none ∨ g.loser_odds = none →
        evalGame P S tr g = .ok ([], [], [LogEvent.skipMissingOdds])) ∧
    (∀ g : Game, g.winner_odds ≠ none → g.loser_odds ≠ none →
        g.winner = none ∨ g.loser = none →
        evalGame P S tr g = .ok ([], [], [LogEvent.skipMissingLabels])) ∧
    (∀ (g : Game) (gs : List Game) (log : LogEvent) o2,
        evalGame P S tr g = .ok ([], [], [log]) →
        evalBets P S tr gs = .ok o2 →
        evalBets P S tr (g :: gs) = .ok (o2.1, o2.2.1, log :: o2.2.2)) := by
  refine ⟨evalGame_missing_odds P S tr, evalGame_missing_label P S tr, ?_⟩
  intro g gs log o2 h1 h2
  have h := evalBets_cons P S tr g gs ([], [], [log]) o2 h1 h2
  simpa using h

/-- Claim C7, witness: the two skip rules applied to concrete malformed
games. -/
theorem c7_malformed_skipped_witness :
    evalGame pConst sConst [] gameNoOdds =
      .ok ([], [], [LogEvent.skipMissingOdds]) ∧
    evalGame pConst sConst [] gameNoLabel =
      .ok ([], [], [LogEvent.skipMissingLabels]) :=
  ⟨(c7_malformed_skipped pConst sConst []).1 gameNoOdds (Or.inl rfl),
   (c7_malformed_skipped pConst sConst []).2.1 gameNoLabel (by decide)
     (by decide) (Or.inl rfl)⟩

/-- Claim C8: the odds converter implements exactly
`odds ≥ 0 → odds/100 + 1` and otherwise `100/|odds| + 1`, and the three
quoted values are exact. -/
theorem c8_odds_converter :
    (∀ o : Rat, american_to_decimal o =
      if o ≥ 0 then o / 100 + 1 else 100 / |o| + 1) ∧
    american_to_decimal 150 = 2.5 ∧
    american_to_decimal (-200) = 1.5 ∧
    american_to_decimal 180 = 2.8 :=
  ⟨fun o => rfl, by norm_num [american_to_decimal],
   by norm_num [american_to_decimal], by norm_num [american_to_decimal]⟩

/-- Claim C9: in projection mode the arena is advanced with period p's
outcomes BEFORE the probabilities for period p+1's games are computed —
every prediction recorded by a projection step over a period with games
uses the trace extended with that period's own batch — while the same
period's step in `run_explicit` records predictions that use the trace
WITHOUT that batch: the projection state is one period fresher. -/
theorem c9_projection_freshness (P : PredictFn) (S : StrategyFn)
    (threshold : Int) (data : List (Int × List Game)) (stp : ProjState)
    (st : ExpState) (k : Int) (games : List Game)
    (hne : matchupsOf games ≠ []) :
    (∀ st2 : ProjState, stepProject P data stp (k, games) = .ok st2 →
        ∀ kc ∈ st2.predCalls, kc ∈ stp.predCalls ∨
          kc.2.trace = stp.trace ++ [matchupsOf games]) ∧
    (∀ st2 : ExpState, stepExplicit P S threshold data st (k, games) = .ok st2 →
        ∀ kc ∈ st2.predCalls, kc ∈ st.predCalls ∨ kc.2.trace = st.trace) := by
  constructor
  · intro st2 hstep kc hkc
    obtain ⟨calls, hpc, hst2⟩ := stepProject_ok_spec P data stp (k, games) st2 hstep
    subst hst2
    dsimp only at hpc hkc
    simp only [List.mem_append, List.mem_map] at hkc
    rcases hkc with hk2 | ⟨c, hc, hkc2⟩
    · exact Or.inl hk2
    · right
      subst hkc2
      have hct := projCalls_trace P (advTrace stp.trace games) _ _ hpc c hc
      show c.trace = stp.trace ++ [matchupsOf games]
      rw [hct, advTrace_eq]
      simp [hne]
  · intro st2 hstep kc hkc
    obtain ⟨bs, cs, ls, hev, hst2⟩ :=
      stepExplicit_ok_spec P S threshold data st (k, games) st2 hstep
    subst hst2
    dsimp only at hev hkc
    simp only [List.mem_append, List.mem_map] at hkc
    rcases hkc with hk2 | ⟨c, hc, hkc2⟩
    · exact Or.inl hk2
    · right
      subst hkc2
      exact evalBets_calls_trace P S st.trace _ _ hev c hc

/-- Claim C9, witness: the first projection step over `dataP` records a
prediction for period 2's game whose trace already contains period 1's
batch. -/
theorem c9_projection_freshness_witness :
    ((1 : Int), (⟨[[(some "A", some "B")]], some "A", some "B"⟩ : PredCall)) ∈
        (⟨[], []⟩ : ProjState).predCalls ∨
    ((1 : Int), (⟨[[(some "A", some "B")]], some "A", some "B"⟩ : PredCall)).2.trace =
      (⟨[], []⟩ : ProjState).trace ++ [matchupsOf [gameAB]] :=
  (c9_projection_freshness pConst sConst 3 dataP ⟨[], []⟩ (initState bank0) 1
      [gameAB] (by decide)).1 projSt2 rfl
    ((1 : Int), ⟨[[(some "A", some "B")]], some "A", some "B"⟩) (by decide)

/-- Claim C10: the batch passed to arena advancement has one
(winner, loser) pair per game record, in order, with `none` standing for
a missing key (conjuncts 1 and 2); both run modes advance the trace with
exactly that batch, guarded only by non-emptiness (conjuncts 3, 4
and 5); and a game with a missing label yields no candidate wager even
though its pair still enters the advancement batch (conjunct 6). -/
theorem c10_matchups_totality :
    (∀ games : List Game, (matchupsOf games).length = games.length) ∧
    (∀ (games : List Game) (i : Nat),
        (matchupsOf games).get? i =
          (games.get? i).map (fun g => (g.winner, g.loser))) ∧
    (∀ (P : PredictFn) (S : StrategyFn) (threshold : Int)
        (data : List (Int × List Game)) (st : ExpState)
        (e : Int × List Game) (st2 : ExpState),
        stepExplicit P S threshold data st e = .ok st2 →
        st2.trace = advTrace st.trace e.2) ∧
    (∀ (P : PredictFn) (data : List (Int × List Game)) (st : ProjState)
        (e : Int × List Game) (st2 : ProjState),
        stepProject P data st e = .ok st2 → st2.trace = advTrace st.trace e.2) ∧
    (∀ (tr : Trace) (games : List Game),
        advTrace tr games =
          if matchupsOf games = [] then tr else tr ++ [matchupsOf games]) ∧
    (∀ (P : PredictFn) (S : StrategyFn) (tr : Trace) (g : Game),
        g.winner_odds ≠ none → g.loser_odds ≠ none →
        g.winner = none ∨ g.loser = none →
        evalGame P S tr g = .ok ([], [], [LogEvent.skipMissingLabels])) := by
  refine ⟨?_, ?_, ?_, ?_, fun tr games => rfl, evalGame_missing_label⟩
  · intro games
    simp [matchupsOf]
  · intro games i
    simp [matchupsOf]
  · intro P S threshold data st e st2 h
    obtain ⟨bs, cs, ls, hev, hst2⟩ :=
      stepExplicit_ok_spec P S threshold data st e st2 h
    subst hst2
    rfl
  · intro P data st e st2 h
    obtain ⟨calls, hpc, hst2⟩ := stepProject_ok_spec P data st e st2 h
    subst hst2
    rfl

/-- Claim C10, witness: a game with a missing winner label is excluded
from wager evaluation while `matchupsOf` still contains its pair. -/
theorem c10_matchups_totality_witness :
    evalGame pConst sConst [] gameNoLabel =
      .ok ([], [], [LogEvent.skipMissingLabels]) ∧
    matchupsOf [gameNoLabel] = [(none, some "B")] :=
  ⟨c10_matchups_totality.2.2.2.2.2 pConst sConst [] gameNoLabel (by decide)
      (by decide) (Or.inl rfl),
   by decide⟩

end KeeksElote
